import Mathlib

/-!
Verification of the FNSS ns-2 adapter (`fnss/adapters/ns2.py`).

The adapter converts an FNSS topology object into a Tcl script for ns-2.
We embed the topology data model, the validation predicate
`validate_ns2_stacks`, and the conversion driver `to_ns2` together with the
rendering performed by the embedded template, and prove properties about
them.  Numeric attribute values are embedded as exact rationals (the Python
code performs only exact float multiplications and divisions by powers of
ten on them for the inputs of interest); opaque pass-through values (weights,
buffers, stack and application properties) are embedded as strings, matching
the fact that the template only ever applies `str` to them.
-/

set_option autoImplicit false

set_option allowUnsafeReducibility true in
attribute [semireducible] Rat.mul Rat.inv Rat.div Rat.normalize

namespace NS2

/-- An ordered property mapping (Python dict of a stack or application):
the template iterates `items()` in order, so we keep an association list. -/
abbrev Props := List (String × String)

/-- `k in props` of the Python dict. -/
def hasKey (ps : Props) (k : String) : Bool :=
  ps.any (fun p => p.1 == k)

/-- `props[k]` of the Python dict, `none` standing for a KeyError. -/
def lookupKey (ps : Props) (k : String) : Option String :=
  (ps.find? (fun p => p.1 == k)).map (fun p => p.2)

/-- Generic lookup in a string-keyed table (used for the unit tables). -/
def lookupKV {α : Type} (ps : List (String × α)) (k : String) : Option α :=
  (ps.find? (fun p => p.1 == k)).map (fun p => p.2)

/-- Modelled from the spec: the `fnss.units` table `capacity_units` is not
under src/; §4.1 says it maps a declared capacity unit name to the factor
turning stored capacities into the target unit, values being the unit
expressed in bits per second (C7: Gbps is 10^9 bit/s). -/
def capacity_units : List (String × ℚ) :=
  [("bps", 1), ("kbps", 1000), ("Mbps", 1000000),
   ("Gbps", 1000000000), ("Tbps", 1000000000000)]

/-- Modelled from the spec: the `fnss.units` table `time_units` is not under
src/; §4.1 says it maps a declared delay unit name to the factor converting
stored delay values to milliseconds. -/
def time_units : List (String × ℚ) :=
  [("us", 1/1000), ("ms", 1), ("s", 1000), ("m", 60000), ("h", 3600000)]

/-- Attributes of one edge of the topology.  `capacity` and `delay` are
numeric (the template multiplies them by a normalization factor); `weight`
and `buffer` are opaque values that the template passes through `str`
verbatim.  A `none` field is an absent dictionary key. -/
structure EdgeAttr where
  capacity : Option ℚ
  delay : Option ℚ
  weight : Option String
  buffer : Option String
deriving Repr, DecidableEq

/-- A protocol stack attached to a node: `get_stack` returns a
`(name, properties)` pair. -/
structure Stack where
  name : String
  props : Props
deriving Repr, DecidableEq

/-- An application attached to a node: `get_application_names` lists the
names in order and `get_application_properties` yields the properties. -/
structure App where
  name : String
  props : Props
deriving Repr, DecidableEq

/-- One node of the topology: its id (already through `str`), its optional
protocol stack and its ordered application list. -/
structure NodeData where
  id : String
  stack : Option Stack
  applications : List App
deriving Repr, DecidableEq

/-- The topology snapshot read by the adapter: directedness flag, node
iteration order, edge iteration order with each stored edge's attribute
dictionary, and the three graph-level unit attributes (a `none` unit is an
absent graph key). -/
structure Topology where
  directed : Bool
  nodes : List NodeData
  edges : List (String × String × EdgeAttr)
  capacity_unit : Option String
  delay_unit : Option String
  buffer_unit : Option String
deriving Repr, DecidableEq

/-- `topology.edge[u][v]`: for a directed topology only the stored
direction resolves; for an undirected one both orientations resolve to the
same attribute dictionary (networkx semantics).  `none` is a KeyError. -/
def findEdge (t : Topology) (u v : String) : Option EdgeAttr :=
  match t.edges.find? (fun e => e.1 == u && e.2.1 == v) with
  | some e => some e.2.2
  | none =>
    if t.directed then none
    else (t.edges.find? (fun e => e.1 == v && e.2.1 == u)).map (fun e => e.2.2)

/-- Modelled from the spec: `fnss.netconfig.nodeconfig.get_stack` is not
under src/; §3 and §4.3 say it returns the node's optional ProtocolStack as
a name plus a property mapping, or nothing when the node has no stack. -/
def get_stack (n : NodeData) : Option (String × Props) :=
  n.stack.map (fun s => (s.name, s.props))

/-- Modelled from the spec: `get_application_names` is not under src/; §6
says the topology offers an ordered list of application names per node. -/
def get_application_names (n : NodeData) : List String :=
  n.applications.map (fun a => a.name)

/-- Modelled from the spec: `get_application_properties` is not under src/;
§6 says it yields the property mapping of a named application of a node. -/
def get_application_properties (n : NodeData) (name : String) : Option Props :=
  (n.applications.find? (fun a => a.name == name)).map (fun a => a.props)

/-- `validate_ns2_stacks` restricted to one node: every application carries
a `class` property, and either the node has no stack (allowed only with no
applications) or the stack carries a `class` property. -/
def validNode (n : NodeData) : Bool :=
  (n.applications.all (fun a => hasKey a.props "class")) &&
  (match n.stack with
   | none => n.applications.length == 0
   | some s => hasKey s.props "class")

/-- `validate_ns2_stacks(topology)`: checks, node by node, that every
application has a `class` property, that a node with applications has a
stack, and that a declared stack has a `class` property. -/
def validate_ns2_stacks (t : Topology) : Bool :=
  t.nodes.all validNode

/-! ### Rendering of numbers

The template substitutes `str(value * norm)` where `value` is a stored
number and `norm` a Python float normalization factor, so the substituted
value is a float.  The arithmetic itself is exact for the decimal values of
interest; `pyNumStr` renders the exact result the way Python `str` renders
the corresponding float: an integer value prints with a trailing `.0`, a
value with a short terminating decimal expansion prints that expansion. -/

/-- Strip trailing `0` digits from a fractional digit string. -/
def stripZeros (s : List Char) : List Char :=
  (s.reverse.dropWhile (fun c => c == '0')).reverse

/-- Left-pad a digit string with `0` up to length `n`. -/
def padLeft (n : Nat) (s : List Char) : List Char :=
  List.replicate (n - s.length) '0' ++ s

/-- Python `str` of the float holding an exact decimal value: `1000` prints
as `1000.0`, `5/1000` as `0.005`.  (Values whose denominator does not
divide 10^6 do not occur in the proved claims; they get a fallback form.) -/
def pyNumStr (q : ℚ) : String :=
  let sign := if q < 0 then "-" else ""
  let n := q.num.natAbs
  let d := q.den
  if d = 1 then
    sign ++ toString n ++ ".0"
  else if 1000000 % d = 0 then
    let scaled := n * (1000000 / d)
    let ip := scaled / 1000000
    let fp := scaled % 1000000
    sign ++ toString ip ++ "." ++
      String.mk (stripZeros (padLeft 6 (toString fp).toList))
  else
    sign ++ toString n ++ "/" ++ toString d

/-! ### The rendered command lines

Each rendered Tcl statement of the template, as the exact string the
template substitution produces. -/

/-- `set n<id> [$ns node]` -/
def nodeLineStr (id : String) : String :=
  "set n" ++ id ++ " [$ns node]"

/-- `$ns simplex-link ...` or `$ns duplex-link ...` with the textual
capacity and delay fields. -/
def linkLineStr (directed : Bool) (u v capStr delayStr : String) : String :=
  "$ns " ++ (if directed then "simplex" else "duplex") ++ "-link $n" ++ u ++
    " $n" ++ v ++ " " ++ capStr ++ "Mb " ++ delayStr ++ "ms $qtype"

/-- `$ns cost $n<u> $n<v> <w>` -/
def costLineStr (u v w : String) : String :=
  "$ns cost $n" ++ u ++ " $n" ++ v ++ " " ++ w

/-- `$ns queue-limit $n<u> $n<v> <b>` -/
def queueLineStr (u v b : String) : String :=
  "$ns queue-limit $n" ++ u ++ " $n" ++ v ++ " " ++ b

/-- `set <name> [new <class>]` -/
def newObjStr (name cls : String) : String :=
  "set " ++ name ++ " [new " ++ cls ++ "]"

/-- `$<name> set <prop> <val>` -/
def setPropStr (name p v : String) : String :=
  "$" ++ name ++ " set " ++ p ++ " " ++ v

/-- `$ns attach-agent $n<node> $<stack>` -/
def attachAgentStr (node stackName : String) : String :=
  "$ns attach-agent $n" ++ node ++ " $" ++ stackName

/-- `$<app> attach-agent $<stack>` -/
def attachAppStr (app stackName : String) : String :=
  "$" ++ app ++ " attach-agent $" ++ stackName

/-! ### Template loops

The template loops emit one result (or a small list of lines) per element;
an attribute lookup that raises a KeyError aborts the rendering, which
`mapOpt` models by propagating `none`.  `concatAll` flattens the per-element
line lists in order. -/

/-- Run `f` over a list, collecting the results; `none` aborts. -/
def mapOpt {α β : Type} (f : α → Option β) : List α → Option (List β)
  | [] => some []
  | x :: xs => do
    let y ← f x
    let ys ← mapOpt f xs
    pure (y :: ys)

/-- Concatenate a list of line lists in order. -/
def concatAll {α : Type} : List (List α) → List α
  | [] => []
  | x :: xs => x ++ concatAll xs

/-! ### The template sections

The template preamble computes `capacity_norm` unconditionally and
`delay_norm` only when `set_delays` holds (`if set_delays: delay_norm =
time_units[topology.graph[...]]`); the sections then loop over nodes or
edges.  Every `topology.edge[u][v][...]` dictionary access is a `findEdge`
plus a field read, `none` standing for the KeyError. -/

/-- `capacity_norm = capacity_units[topology.graph['capacity_unit']] / 1000000.0` -/
def mkCapacityNorm (t : Topology) : Option ℚ :=
  (t.capacity_unit.bind (lookupKV capacity_units)).map (fun c => c / 1000000)

/-- `if set_delays: delay_norm = time_units[topology.graph['delay_unit']]`:
when `set_delays` is false the factor is simply never computed (inner
`none`), so a missing or unrecognized unit cannot fail here. -/
def mkDelayNorm (t : Topology) (set_delays : Bool) : Option (Option ℚ) :=
  if set_delays then
    (t.delay_unit.bind (lookupKV time_units)).map some
  else
    some none

/-- The node creation section: `set n<id> [$ns node]` per node in node
iteration order. -/
def nodeSection (t : Topology) : List String :=
  t.nodes.map (fun n => nodeLineStr n.id)

/-- One link command for the edge `(u, v)`: the delay field is the literal
`"0"` when `set_delays` is false and `str(delay * delay_norm)` otherwise;
the capacity field is `str(capacity * capacity_norm)`; the command is
simplex for a directed topology and duplex otherwise. -/
def renderLinkLine (t : Topology) (set_delays : Bool) (cn : ℚ) (dn : Option ℚ)
    (e : String × String × EdgeAttr) : Option String := do
  let ea ← findEdge t e.1 e.2.1
  let delayStr ←
    if set_delays then do
      let d ← ea.delay
      let f ← dn
      pure (pyNumStr (d * f))
    else
      pure "0"
  let cap ← ea.capacity
  pure (linkLineStr t.directed e.1 e.2.1 (pyNumStr (cap * cn)) delayStr)

/-- The link creation section: one command per edge in edge iteration
order. -/
def linkSection (t : Topology) (set_delays : Bool) (cn : ℚ) (dn : Option ℚ) :
    Option (List String) :=
  mapOpt (renderLinkLine t set_delays cn dn) t.edges

/-- The cost commands for one edge: `$ns cost $nu $nv w` from
`topology.edge[u][v]['weight']`, and for an undirected topology also
`$ns cost $nv $nu w2` from `topology.edge[v][u]['weight']`. -/
def renderEdgeWeights (t : Topology) (e : String × String × EdgeAttr) :
    Option (List String) := do
  let ea ← findEdge t e.1 e.2.1
  let w ← ea.weight
  if t.directed then
    pure [costLineStr e.1 e.2.1 w]
  else do
    let ea2 ← findEdge t e.2.1 e.1
    let w2 ← ea2.weight
    pure [costLineStr e.1 e.2.1 w, costLineStr e.2.1 e.1 w2]

/-- The link weight section, rendered only when `set_weights` holds. -/
def weightSection (t : Topology) (set_weights : Bool) : Option (List String) :=
  if set_weights then
    (mapOpt (renderEdgeWeights t) t.edges).map concatAll
  else
    some []

/-- The queue-limit commands for one edge, with the same direction doubling
as for weights, reading `topology.edge[u][v]['buffer']` and, for an
undirected topology, `topology.edge[v][u]['buffer']`. -/
def renderEdgeBuffers (t : Topology) (e : String × String × EdgeAttr) :
    Option (List String) := do
  let ea ← findEdge t e.1 e.2.1
  let b ← ea.buffer
  if t.directed then
    pure [queueLineStr e.1 e.2.1 b]
  else do
    let ea2 ← findEdge t e.2.1 e.1
    let b2 ← ea2.buffer
    pure [queueLineStr e.1 e.2.1 b, queueLineStr e.2.1 e.1 b2]

/-- The queue size section, rendered only when `set_buffers` holds. -/
def bufferSection (t : Topology) (set_buffers : Bool) : Option (List String) :=
  if set_buffers then
    (mapOpt (renderEdgeBuffers t) t.edges).map concatAll
  else
    some []

/-- The deployment commands for one application: instantiation from its
`class` property, one `set` command per remaining property in order, and
the attach command to the stack variable. -/
def renderApp (stackName : String) (a : App) : Option (List String) := do
  let cls ← lookupKey a.props "class"
  pure ([newObjStr a.name cls] ++
    (a.props.filter (fun p => p.1 != "class")).map
      (fun p => setPropStr a.name p.1 p.2) ++
    [attachAppStr a.name stackName])

/-- The deployment commands for one node: a node without a stack is
skipped entirely (`continue`); otherwise the stack is instantiated from its
`class` property, configured, attached to the node, and each application of
the node is deployed in order. -/
def renderStackNode (n : NodeData) : Option (List String) :=
  match get_stack n with
  | none => some []
  | some st => do
    let cls ← lookupKey st.2 "class"
    let appLines ← mapOpt (renderApp st.1) n.applications
    pure ([newObjStr st.1 cls] ++
      (st.2.filter (fun p => p.1 != "class")).map
        (fun p => setPropStr st.1 p.1 p.2) ++
      [attachAgentStr n.id st.1] ++ concatAll appLines)

/-- The stack deployment section, rendered only when `deploy_stacks`
holds. -/
def stackSection (t : Topology) (deploy_stacks : Bool) : Option (List String) :=
  if deploy_stacks then
    (mapOpt renderStackNode t.nodes).map concatAll
  else
    some []

/-- The rendered script, grouped into the template's five line groups in
template order. -/
structure Script where
  nodeLines : List String
  linkLines : List String
  weightLines : List String
  bufferLines : List String
  stackLines : List String
deriving Repr, DecidableEq

/-- The full byte content, the sections concatenated in template order. -/
def Script.text (s : Script) : String :=
  String.intercalate "\n"
    (s.nodeLines ++ s.linkLines ++ s.weightLines ++ s.bufferLines ++ s.stackLines)

/-- `template.render(**variables)`: evaluate the preamble, then the five
sections in order.  `none` is an exception escaping the template engine. -/
def renderScript (t : Topology)
    (deploy_stacks set_delays set_buffers set_weights : Bool) : Option Script := do
  let cn ← mkCapacityNorm t
  let dn ← mkDelayNorm t set_delays
  let ll ← linkSection t set_delays cn dn
  let wl ← weightSection t set_weights
  let bl ← bufferSection t set_buffers
  let sl ← stackSection t deploy_stacks
  pure ⟨nodeSection t, ll, wl, bl, sl⟩

/-! ### The conversion driver `to_ns2` -/

/-- How a conversion fails.  A `valueError` is raised by the explicit
capacity-unit checks, which run before the output file is opened, so no
output file exists; a `renderError` is an exception escaping the template
engine inside `out.write(template.render(...))`, after `open(path, "w")`
has already created the (empty) file. -/
inductive ConvError where
  | valueError (msg : String)
  | renderError
deriving Repr, DecidableEq

/-- `set_weights = all('weight' in topology.edge[u][v] for u, v in
topology.edges_iter())`. -/
def set_weights_of (t : Topology) : Bool :=
  t.edges.all (fun e => (findEdge t e.1 e.2.1).any (fun ea => ea.weight.isSome))

/-- Diagnostic for a missing buffer size unit. -/
def bufferMissingMsg : String :=
  "Missing buffer size unit attribute in the topology. Output file will be generated without buffer assignments."

/-- Diagnostic for an unsupported buffer size unit. -/
def bufferUnitMsg (bu : String) : String :=
  "The buffer size unit of the topology is " ++ bu ++ ". The only supported unit is packets. Output file will be generated without buffer assignments"

/-- Diagnostic for a missing or invalid delay unit. -/
def delayUnitMsg : String :=
  "Missing or invalid delay unit attribute in the topology. The output file will be generated with all link delays set to 0."

/-- Diagnostic for stacks that fail `validate_ns2_stacks`. -/
def stackInvalidMsg : String :=
  "Some application stacks cannot be parsed correctly. The output file will be generated without stack assignments."

/-- The buffer-unit validation of `to_ns2`: warnings raised and the
resulting `set_buffers` flag.  The flag stays true exactly for the literal
unit `packets`; the two other cases each record one diagnostic. -/
def bufferCheck (t : Topology) : List String × Bool :=
  match t.buffer_unit with
  | none => ([bufferMissingMsg], false)
  | some bu => if bu == "packets" then ([], true) else ([bufferUnitMsg bu], false)

/-- The delay-unit validation of `to_ns2`: a missing or unrecognized
`delay_unit` records one diagnostic and clears `set_delays`. -/
def delayCheck (t : Topology) : List String × Bool :=
  match t.delay_unit with
  | none => ([delayUnitMsg], false)
  | some du =>
    if (lookupKV time_units du).isSome then ([], true) else ([delayUnitMsg], false)

/-- The stack-deployment downgrade logic of `to_ns2`: when stacks were
requested, a failed `validate_ns2_stacks` records one diagnostic and clears
the flag; afterwards, if no node carries a `stack` attribute the flag is
cleared without any diagnostic. -/
def stacksCheck (t : Topology) (stacksArg : Bool) : List String × Bool :=
  if stacksArg then
    let p1 := if validate_ns2_stacks t then (([] : List String), true)
              else ([stackInvalidMsg], false)
    (p1.1, p1.2 && t.nodes.any (fun n => n.stack.isSome))
  else
    ([], false)

/-- `to_ns2(topology, path, stacks)`: compute `set_weights`, fail on a
missing or unrecognized `capacity_unit`, downgrade buffers, delays and
stack deployment with their diagnostics, then render the template and
write the result.  The returned pair carries the recorded warnings in
order and the rendered script. -/
def to_ns2 (t : Topology) (stacksArg : Bool) :
    Except ConvError (List String × Script) :=
  match t.capacity_unit with
  | none => .error (.valueError "The given topology does not have capacity data.")
  | some cu =>
    if (lookupKV capacity_units cu).isNone then
      .error (.valueError "The given topology does not have a valid capacity unit")
    else
      match renderScript t (stacksCheck t stacksArg).2 (delayCheck t).2
          (bufferCheck t).2 (set_weights_of t) with
      | some script =>
        .ok ((bufferCheck t).1 ++ (delayCheck t).1 ++ (stacksCheck t stacksArg).1,
          script)
      | none => .error .renderError

/-! ### Derived notions used by the statements -/

/-- An edge list is consistent when looking an edge's own endpoints up
yields that edge's attribute dictionary, as in a networkx adjacency (no
two stored entries resolve to the same endpoint pair). -/
def consistentEdges (t : Topology) : Prop :=
  ∀ e ∈ t.edges, findEdge t e.1 e.2.1 = some e.2.2

/-- Drop the `delay` key of an edge attribute dictionary. -/
def eraseDelaysAttr (ea : EdgeAttr) : EdgeAttr :=
  { ea with delay := none }

/-- The same topology with every per-edge `delay` attribute removed: used
to state that disabled delay rendering never reads them. -/
def eraseDelays (t : Topology) : Topology :=
  { t with edges := t.edges.map (fun e => (e.1, e.2.1, eraseDelaysAttr e.2.2)) }

/-- Drop the `weight` key of an edge attribute dictionary. -/
def eraseWeightsAttr (ea : EdgeAttr) : EdgeAttr :=
  { ea with weight := none }

/-- The same topology with every per-edge `weight` attribute removed: used
to state that disabling weight rendering emits no diagnostic. -/
def eraseWeights (t : Topology) : Topology :=
  { t with edges := t.edges.map (fun e => (e.1, e.2.1, eraseWeightsAttr e.2.2)) }

/-- The same topology without the `buffer_unit` graph attribute: used to
state that buffer downgrading leaves every other feature unaffected. -/
def eraseBufferUnit (t : Topology) : Topology :=
  { t with buffer_unit := none }

/-- The weight commands as the spec words them: one cost command per edge
for a directed topology; for an undirected one, two commands per edge, one
per direction, each reading that direction's weight lookup. -/
def costCommandsSpec (t : Topology) : List String :=
  concatAll (t.edges.map (fun e =>
    if t.directed then
      [costLineStr e.1 e.2.1 (((findEdge t e.1 e.2.1).bind EdgeAttr.weight).getD "")]
    else
      [costLineStr e.1 e.2.1 (((findEdge t e.1 e.2.1).bind EdgeAttr.weight).getD ""),
       costLineStr e.2.1 e.1 (((findEdge t e.2.1 e.1).bind EdgeAttr.weight).getD "")]))

/-- The buffer commands as the spec words them, with the same direction
doubling rule as the weights. -/
def queueCommandsSpec (t : Topology) : List String :=
  concatAll (t.edges.map (fun e =>
    if t.directed then
      [queueLineStr e.1 e.2.1 (((findEdge t e.1 e.2.1).bind EdgeAttr.buffer).getD "")]
    else
      [queueLineStr e.1 e.2.1 (((findEdge t e.1 e.2.1).bind EdgeAttr.buffer).getD ""),
       queueLineStr e.2.1 e.1 (((findEdge t e.2.1 e.1).bind EdgeAttr.buffer).getD "")]))

/-! ### Concrete topologies used as witnesses and counterexamples -/

/-- Attributes of the single edge of `tW`: capacity 1 (in the declared
Gbps), no delay, weight 3 and buffer 50. -/
def eaW : EdgeAttr := ⟨some 1, none, some "3", some "50"⟩

/-- A two-node undirected topology with one fully attributed edge, unit
Gbps, buffer unit packets, and no delay unit. -/
def tW : Topology :=
  ⟨false, [⟨"0", none, []⟩, ⟨"1", none, []⟩], [("0", "1", eaW)],
   some "Gbps", none, some "packets"⟩

/-- The script `to_ns2` renders for `tW`. -/
def scW : Script :=
  ⟨[nodeLineStr "0", nodeLineStr "1"],
   [linkLineStr false "0" "1" "1000.0" "0"],
   [costLineStr "0" "1" "3", costLineStr "1" "0" "3"],
   [queueLineStr "0" "1" "50", queueLineStr "1" "0" "50"],
   []⟩

/-- A topology with no `capacity_unit` graph attribute. -/
def tNoCap : Topology := ⟨false, [⟨"0", none, []⟩], [], none, none, none⟩

/-- A topology whose `capacity_unit` is not a recognized unit. -/
def tBadCap : Topology :=
  ⟨false, [⟨"0", none, []⟩], [], some "furlongs", none, none⟩

/-- A valid one-node topology with no stack declared anywhere. -/
def tC8 : Topology :=
  ⟨false, [⟨"0", none, []⟩], [], some "Mbps", some "ms", some "packets"⟩

/-- A node whose application `ftp0` lacks the `class` property. -/
def tBadApp : Topology :=
  ⟨false,
   [⟨"0", some ⟨"tcp0", [("class", "Agent/TCP")]⟩, [⟨"ftp0", [("rate", "1M")]⟩]⟩],
   [], some "Mbps", some "ms", none⟩

/-- A node whose stack and application both carry `class`. -/
def tGood : Topology :=
  ⟨false,
   [⟨"0", some ⟨"tcp0", [("class", "Agent/TCP"), ("packetSize", "1500")]⟩,
     [⟨"ftp0", [("class", "Application/FTP")]⟩]⟩],
   [], some "Mbps", some "ms", none⟩

/-- A node with applications but no declared stack. -/
def tNoStack : Topology :=
  ⟨false, [⟨"0", none, [⟨"ftp0", [("class", "Application/FTP")]⟩]⟩],
   [], some "Mbps", some "ms", none⟩

/-! ### Helper lemmas about the loop combinators -/

theorem mapOpt_nil {α β : Type} (f : α → Option β) : mapOpt f [] = some [] := rfl

theorem mapOpt_cons {α β : Type} (f : α → Option β) (x : α) (xs : List α) :
    mapOpt f (x :: xs) =
      (f x).bind (fun y => (mapOpt f xs).bind (fun ys => some (y :: ys))) := rfl

theorem mapOpt_length {α β : Type} (f : α → Option β) :
    ∀ {l : List α} {l2 : List β}, mapOpt f l = some l2 → l2.length = l.length := by
  intro l
  induction l with
  | nil => intro l2 h; cases h; rfl
  | cons x xs ih =>
    intro l2 h
    rw [mapOpt_cons] at h
    cases hx : f x with
    | none => rw [hx] at h; cases h
    | some y =>
      rw [hx] at h
      cases hxs : mapOpt f xs with
      | none => rw [hxs] at h; cases h
      | some ys =>
        rw [hxs] at h
        cases h
        simp [ih hxs]

theorem mapOpt_get {α β : Type} (f : α → Option β) :
    ∀ {l : List α} {l2 : List β}, mapOpt f l = some l2 →
      ∀ i (h1 : i < l.length) (h2 : i < l2.length),
        f (l.get ⟨i, h1⟩) = some (l2.get ⟨i, h2⟩) := by
  intro l
  induction l with
  | nil => intro l2 h i h1; exact absurd h1 (Nat.not_lt_zero i)
  | cons x xs ih =>
    intro l2 h i h1 h2
    rw [mapOpt_cons] at h
    cases hx : f x with
    | none => rw [hx] at h; cases h
    | some y =>
      rw [hx] at h
      cases hxs : mapOpt f xs with
      | none => rw [hxs] at h; cases h
      | some ys =>
        rw [hxs] at h
        cases h
        cases i with
        | zero => exact hx
        | succ j => exact ih hxs j (Nat.lt_of_succ_lt_succ h1) (Nat.lt_of_succ_lt_succ h2)

theorem mapOpt_mem {α β : Type} (f : α → Option β) :
    ∀ {l : List α} {l2 : List β}, mapOpt f l = some l2 →
      ∀ y ∈ l2, ∃ x ∈ l, f x = some y := by
  intro l
  induction l with
  | nil => intro l2 h y hy; cases h; cases hy
  | cons x xs ih =>
    intro l2 h y hy
    rw [mapOpt_cons] at h
    cases hx : f x with
    | none => rw [hx] at h; cases h
    | some z =>
      rw [hx] at h
      cases hxs : mapOpt f xs with
      | none => rw [hxs] at h; cases h
      | some ys =>
        rw [hxs] at h
        cases h
        cases hy with
        | head => exact ⟨x, List.mem_cons_self x xs, hx⟩
        | tail _ hy2 =>
          rcases ih hxs y hy2 with ⟨x2, hx2, hfx2⟩
          exact ⟨x2, List.mem_cons_of_mem x hx2, hfx2⟩

theorem mapOpt_eq_map {α β : Type} (f : α → Option β) (g : α → β) :
    ∀ {l : List α}, (∀ x ∈ l, f x = some (g x)) → mapOpt f l = some (l.map g) := by
  intro l
  induction l with
  | nil => intro _; rfl
  | cons x xs ih =>
    intro h
    rw [mapOpt_cons, h x (List.mem_cons_self x xs),
        ih (fun z hz => h z (List.mem_cons_of_mem x hz))]
    rfl

theorem mapOpt_isSome {α β : Type} (f : α → Option β) :
    ∀ {l : List α}, (∀ x ∈ l, (f x).isSome = true) → (mapOpt f l).isSome = true := by
  intro l
  induction l with
  | nil => intro _; rfl
  | cons x xs ih =>
    intro h
    rw [mapOpt_cons]
    cases hx : f x with
    | none => have := h x (List.mem_cons_self x xs); rw [hx] at this; cases this
    | some y =>
      have hxs := ih (fun z hz => h z (List.mem_cons_of_mem x hz))
      cases hxs2 : mapOpt f xs with
      | none => rw [hxs2] at hxs; cases hxs
      | some ys => simp [hxs2]

theorem mapOpt_congr {α β : Type} (f g : α → Option β) :
    ∀ {l : List α}, (∀ x ∈ l, f x = g x) → mapOpt f l = mapOpt g l := by
  intro l
  induction l with
  | nil => intro _; rfl
  | cons x xs ih =>
    intro h
    rw [mapOpt_cons, mapOpt_cons, h x (List.mem_cons_self x xs),
        ih (fun z hz => h z (List.mem_cons_of_mem x hz))]

theorem concatAll_map_nil {α β : Type} (l : List α) :
    concatAll (l.map (fun _ => ([] : List β))) = [] := by
  induction l with
  | nil => rfl
  | cons x xs ih => simpa [concatAll] using ih

theorem mapOpt_map {α β γ : Type} (f : α → β) (g : β → Option γ) (l : List α) :
    mapOpt g (l.map f) = mapOpt (fun x => g (f x)) l := by
  induction l with
  | nil => rfl
  | cons x xs ih => simp only [List.map_cons, mapOpt_cons, ih]

theorem concatAll_length_const {α β : Type} (l : List α) (g : α → List β) (k : Nat)
    (h : ∀ x ∈ l, (g x).length = k) :
    (concatAll (l.map g)).length = k * l.length := by
  induction l with
  | nil => simp [concatAll]
  | cons x xs ih =>
    simp only [List.map_cons, concatAll, List.length_append, List.length_cons]
    rw [h x (List.mem_cons_self x xs), ih (fun z hz => h z (List.mem_cons_of_mem x hz))]
    ring

theorem all_map_eq {α β : Type} (f : α → β) (p : β → Bool) (l : List α) :
    (l.map f).all p = l.all (fun x => p (f x)) := by
  induction l with
  | nil => rfl
  | cons x xs ih => simp only [List.map_cons, List.all_cons, ih]

theorem all_congr_list {α : Type} (p q : α → Bool) (l : List α)
    (h : ∀ x ∈ l, p x = q x) : l.all p = l.all q := by
  induction l with
  | nil => rfl
  | cons x xs ih =>
    simp only [List.all_cons]
    rw [h x (List.mem_cons_self x xs), ih (fun z hz => h z (List.mem_cons_of_mem x hz))]

theorem find?_map_eq {α β : Type} (f : α → β) (p : β → Bool) (l : List α) :
    (l.map f).find? p = (l.find? (fun x => p (f x))).map f := by
  induction l with
  | nil => rfl
  | cons x xs ih =>
    simp only [List.map_cons]
    rw [List.find?_cons, List.find?_cons]
    cases hx : p (f x) with
    | true => rfl
    | false => exact ih

/-! ### Lookup and transport lemmas for `findEdge` -/

theorem findEdge_mapAttr (t : Topology) (φ : EdgeAttr → EdgeAttr) (u v : String) :
    findEdge { t with edges := t.edges.map (fun e => (e.1, e.2.1, φ e.2.2)) } u v
      = (findEdge t u v).map φ := by
  unfold findEdge
  simp only [find?_map_eq]
  cases h1 : t.edges.find? (fun e => e.1 == u && e.2.1 == v) with
  | some e => simp [h1]
  | none =>
    simp only [h1, Option.map_none]
    cases hd : t.directed with
    | true => simp [hd]
    | false =>
      simp only [hd, if_false, Bool.false_eq_true]
      cases h2 : t.edges.find? (fun e => e.1 == v && e.2.1 == u) with
      | some e => simp [h2]
      | none => simp [h2]

/-- Looking up the endpoints of a stored edge always resolves. -/
theorem findEdge_isSome_of_mem (t : Topology) (e : String × String × EdgeAttr)
    (he : e ∈ t.edges) : (findEdge t e.1 e.2.1).isSome = true := by
  unfold findEdge
  cases h1 : t.edges.find? (fun x => x.1 == e.1 && x.2.1 == e.2.1) with
  | some x => rfl
  | none =>
    exfalso
    have : ∀ x ∈ t.edges, ¬ (x.1 == e.1 && x.2.1 == e.2.1) = true :=
      fun x hx => by
        have := List.find?_eq_none.mp h1 x hx
        simpa using this
    exact this e he (by simp)

/-- In an undirected topology, the reverse lookup of a stored edge also
resolves. -/
theorem findEdge_rev_isSome_of_mem (t : Topology) (e : String × String × EdgeAttr)
    (he : e ∈ t.edges) (hd : t.directed = false) :
    (findEdge t e.2.1 e.1).isSome = true := by
  unfold findEdge
  cases h1 : t.edges.find? (fun x => x.1 == e.2.1 && x.2.1 == e.1) with
  | some x => rfl
  | none =>
    simp only [hd, if_false, Bool.false_eq_true]
    cases h2 : t.edges.find? (fun x => x.1 == e.1 && x.2.1 == e.2.1) with
    | some x => rfl
    | none =>
      exfalso
      have : ∀ x ∈ t.edges, ¬ (x.1 == e.1 && x.2.1 == e.2.1) = true :=
        fun x hx => by
          have := List.find?_eq_none.mp h2 x hx
          simpa using this
      exact this e he (by simp)

/-- When the global weight flag holds, any attribute dictionary that any
edge lookup resolves to carries a weight. -/
theorem findEdge_weight_of_flag (t : Topology) (hf : set_weights_of t = true)
    (u v : String) (ea : EdgeAttr) (h : findEdge t u v = some ea) :
    ea.weight.isSome = true := by
  have hall := List.all_eq_true.mp hf
  unfold findEdge at h
  cases h1 : t.edges.find? (fun e => e.1 == u && e.2.1 == v) with
  | some x =>
    rw [h1] at h
    cases h
    have hx := List.mem_of_find?_eq_some h1
    have hpx := List.find?_some h1
    have hp2 : x.1 = u ∧ x.2.1 = v := by simpa using hpx
    have hxu : x.1 = u := hp2.1
    have hxv : x.2.1 = v := hp2.2
    have := hall x hx
    rw [hxu, hxv] at this
    unfold findEdge at this
    rw [h1] at this
    simpa using this
  | none =>
    rw [h1] at h
    cases hd : t.directed with
    | true => rw [hd] at h; simp at h
    | false =>
      rw [hd] at h
      simp only [if_false, Bool.false_eq_true] at h
      cases h2 : t.edges.find? (fun e => e.1 == v && e.2.1 == u) with
      | some x =>
        rw [h2] at h
        cases h
        have hx := List.mem_of_find?_eq_some h2
        have hpx := List.find?_some h2
        have hp2 : x.1 = v ∧ x.2.1 = u := by simpa using hpx
        have hxu : x.1 = v := hp2.1
        have hxv : x.2.1 = u := hp2.2
        have := hall x hx
        rw [hxu, hxv] at this
        unfold findEdge at this
        rw [h2] at this
        simpa using this
      | none => rw [h2] at h; cases h

/-! ### Inversion lemmas -/

/-- Decompose a successful template rendering into its five sections. -/
theorem renderScript_inv {t : Topology} {d sd sb sw : Bool} {sc : Script}
    (h : renderScript t d sd sb sw = some sc) :
    ∃ cn dn, mkCapacityNorm t = some cn ∧ mkDelayNorm t sd = some dn ∧
      linkSection t sd cn dn = some sc.linkLines ∧
      weightSection t sw = some sc.weightLines ∧
      bufferSection t sb = some sc.bufferLines ∧
      stackSection t d = some sc.stackLines ∧
      sc.nodeLines = nodeSection t := by
  simp only [renderScript, Option.bind_eq_bind, Option.bind_eq_some,
    Option.pure_def, Option.some.injEq] at h
  obtain ⟨cn, hcn, dn, hdn, ll, hll, wl, hwl, bl, hbl, sl, hsl, hsc⟩ := h
  subst hsc
  exact ⟨cn, dn, hcn, hdn, hll, hwl, hbl, hsl, rfl⟩

/-- Decompose a successful conversion into the validation outcomes, the
warnings in order, and the successful rendering. -/
theorem to_ns2_ok_inv {t : Topology} {s : Bool} {w : List String} {sc : Script}
    (h : to_ns2 t s = .ok (w, sc)) :
    ∃ cu, t.capacity_unit = some cu ∧ (lookupKV capacity_units cu).isSome = true ∧
      renderScript t (stacksCheck t s).2 (delayCheck t).2 (bufferCheck t).2
        (set_weights_of t) = some sc ∧
      w = (bufferCheck t).1 ++ (delayCheck t).1 ++ (stacksCheck t s).1 := by
  unfold to_ns2 at h
  split at h
  · cases h
  · rename_i cu hcu
    split at h
    · cases h
    · rename_i hif
      split at h
      · rename_i script hr
        simp only [Except.ok.injEq, Prod.mk.injEq] at h
        refine ⟨cu, hcu, ?_, ?_, h.1.symm⟩
        · cases hv : lookupKV capacity_units cu with
          | none => exact absurd (by rw [hv]; rfl) hif
          | some q => rfl
        · rw [hr, h.2]
      · cases h

/-- Decompose one successfully rendered link command. -/
theorem renderLinkLine_inv {t : Topology} {sd : Bool} {cn : ℚ} {dn : Option ℚ}
    {e : String × String × EdgeAttr} {line : String}
    (h : renderLinkLine t sd cn dn e = some line) :
    ∃ ea cap delayStr,
      findEdge t e.1 e.2.1 = some ea ∧ ea.capacity = some cap ∧
      line = linkLineStr t.directed e.1 e.2.1 (pyNumStr (cap * cn)) delayStr ∧
      (sd = false → delayStr = "0") ∧
      (sd = true → ∃ d f, ea.delay = some d ∧ dn = some f ∧
        delayStr = pyNumStr (d * f)) := by
  cases sd with
  | false =>
    simp only [renderLinkLine, Bool.false_eq_true, if_false,
      Option.bind_eq_bind, Option.some_bind, Option.bind_eq_some,
      Option.pure_def, Option.some.injEq] at h
    obtain ⟨ea, hea, cap, hcap, hline⟩ := h
    refine ⟨ea, cap, "0", hea, hcap, hline.symm, fun _ => rfl, ?_⟩
    intro hc
    cases hc
  | true =>
    simp only [renderLinkLine, if_true, Option.bind_eq_bind, Option.some_bind,
      Option.bind_eq_some, Option.pure_def, Option.some.injEq] at h
    obtain ⟨ea, hea, d, hd, f, hf, cap, hcap, hline⟩ := h
    refine ⟨ea, cap, pyNumStr (d * f), hea, hcap, hline.symm, ?_, ?_⟩
    · intro hc
      cases hc
    · intro _
      exact ⟨d, f, hd, hf, rfl⟩

/-! ### Transport along the attribute-erasing transformations -/

theorem eraseDelays_findEdge (t : Topology) (u v : String) :
    findEdge (eraseDelays t) u v = (findEdge t u v).map eraseDelaysAttr :=
  findEdge_mapAttr t eraseDelaysAttr u v

theorem eraseWeights_findEdge (t : Topology) (u v : String) :
    findEdge (eraseWeights t) u v = (findEdge t u v).map eraseWeightsAttr :=
  findEdge_mapAttr t eraseWeightsAttr u v

theorem set_weights_of_eraseDelays (t : Topology) :
    set_weights_of (eraseDelays t) = set_weights_of t := by
  unfold set_weights_of
  rw [show (eraseDelays t).edges
      = t.edges.map (fun e => (e.1, e.2.1, eraseDelaysAttr e.2.2)) from rfl,
    all_map_eq]
  apply all_congr_list
  intro e he
  rw [show ((fun e => (e.1, e.2.1, eraseDelaysAttr e.2.2)) e).1 = e.1 from rfl]
  rw [eraseDelays_findEdge]
  cases findEdge t e.1 e.2.1 with
  | none => rfl
  | some ea => rfl

theorem renderLinkLine_eraseDelays (t : Topology) (cn : ℚ) (dn dn2 : Option ℚ)
    (e : String × String × EdgeAttr) :
    renderLinkLine (eraseDelays t) false cn dn
        ((fun e => (e.1, e.2.1, eraseDelaysAttr e.2.2)) e)
      = renderLinkLine t false cn dn2 e := by
  unfold renderLinkLine
  rw [show ((fun e => (e.1, e.2.1, eraseDelaysAttr e.2.2)) e).1 = e.1 from rfl]
  rw [eraseDelays_findEdge]
  cases findEdge t e.1 e.2.1 with
  | none => rfl
  | some ea => rfl

theorem linkSection_eraseDelays (t : Topology) (cn : ℚ) (dn dn2 : Option ℚ) :
    linkSection (eraseDelays t) false cn dn = linkSection t false cn dn2 := by
  unfold linkSection
  rw [show (eraseDelays t).edges
      = t.edges.map (fun e => (e.1, e.2.1, eraseDelaysAttr e.2.2)) from rfl,
    mapOpt_map]
  exact mapOpt_congr _ _ (fun e _ => renderLinkLine_eraseDelays t cn dn dn2 e)

theorem renderEdgeWeights_eraseDelays (t : Topology)
    (e : String × String × EdgeAttr) :
    renderEdgeWeights (eraseDelays t)
        ((fun e => (e.1, e.2.1, eraseDelaysAttr e.2.2)) e)
      = renderEdgeWeights t e := by
  unfold renderEdgeWeights
  rw [show ((fun e => (e.1, e.2.1, eraseDelaysAttr e.2.2)) e).1 = e.1 from rfl]
  rw [eraseDelays_findEdge, eraseDelays_findEdge]
  cases findEdge t e.1 e.2.1 with
  | none => rfl
  | some ea =>
    cases findEdge t e.2.1 e.1 with
    | none => rfl
    | some ea2 => rfl

theorem weightSection_eraseDelays (t : Topology) (sw : Bool) :
    weightSection (eraseDelays t) sw = weightSection t sw := by
  unfold weightSection
  cases sw with
  | false => rfl
  | true =>
    rw [show (eraseDelays t).edges
        = t.edges.map (fun e => (e.1, e.2.1, eraseDelaysAttr e.2.2)) from rfl,
      mapOpt_map,
      mapOpt_congr _ _ (fun e _ => renderEdgeWeights_eraseDelays t e)]

theorem renderEdgeBuffers_eraseDelays (t : Topology)
    (e : String × String × EdgeAttr) :
    renderEdgeBuffers (eraseDelays t)
        ((fun e => (e.1, e.2.1, eraseDelaysAttr e.2.2)) e)
      = renderEdgeBuffers t e := by
  unfold renderEdgeBuffers
  rw [show ((fun e => (e.1, e.2.1, eraseDelaysAttr e.2.2)) e).1 = e.1 from rfl]
  rw [eraseDelays_findEdge, eraseDelays_findEdge]
  cases findEdge t e.1 e.2.1 with
  | none => rfl
  | some ea =>
    cases findEdge t e.2.1 e.1 with
    | none => rfl
    | some ea2 => rfl

theorem bufferSection_eraseDelays (t : Topology) (sb : Bool) :
    bufferSection (eraseDelays t) sb = bufferSection t sb := by
  unfold bufferSection
  cases sb with
  | false => rfl
  | true =>
    rw [show (eraseDelays t).edges
        = t.edges.map (fun e => (e.1, e.2.1, eraseDelaysAttr e.2.2)) from rfl,
      mapOpt_map,
      mapOpt_congr _ _ (fun e _ => renderEdgeBuffers_eraseDelays t e)]

theorem renderScript_eraseDelays (t : Topology) (d sb sw : Bool) :
    renderScript (eraseDelays t) d false sb sw = renderScript t d false sb sw := by
  unfold renderScript
  rw [show mkCapacityNorm (eraseDelays t) = mkCapacityNorm t from rfl,
    show mkDelayNorm (eraseDelays t) false = mkDelayNorm t false from rfl]
  cases mkCapacityNorm t with
  | none => rfl
  | some cn =>
    cases hdn : mkDelayNorm t false with
    | none => rfl
    | some dn =>
      simp only [Option.bind_eq_bind, Option.some_bind]
      rw [linkSection_eraseDelays t cn dn dn, weightSection_eraseDelays,
        bufferSection_eraseDelays,
        show stackSection (eraseDelays t) d = stackSection t d from rfl,
        show nodeSection (eraseDelays t) = nodeSection t from rfl]

/-- With delay rendering disabled, the whole conversion never reads the
per-edge delay attributes. -/
theorem to_ns2_eraseDelays (t : Topology) (s : Bool)
    (h : (delayCheck t).2 = false) :
    to_ns2 (eraseDelays t) s = to_ns2 t s := by
  have hrs : ∀ d sb sw, renderScript (eraseDelays t) d false sb sw
      = renderScript t d false sb sw := renderScript_eraseDelays t
  unfold to_ns2
  rw [show (eraseDelays t).capacity_unit = t.capacity_unit from rfl,
    show stacksCheck (eraseDelays t) s = stacksCheck t s from rfl,
    show delayCheck (eraseDelays t) = delayCheck t from rfl,
    show bufferCheck (eraseDelays t) = bufferCheck t from rfl,
    set_weights_of_eraseDelays, h, hrs]

/-- `validNode` unfolded into its three defining conditions. -/
theorem validNode_iff (n : NodeData) :
    validNode n = true ↔
      ((∀ a ∈ n.applications, hasKey a.props "class" = true) ∧
       (n.stack = none → n.applications = []) ∧
       (∀ st, n.stack = some st → hasKey st.props "class" = true)) := by
  cases hs : n.stack with
  | none =>
    simp only [validNode, hs, Bool.and_eq_true, List.all_eq_true, beq_iff_eq,
      List.length_eq_zero]
    constructor
    · rintro ⟨h1, h2⟩
      refine ⟨h1, fun _ => h2, ?_⟩
      intro st hst
      cases hst
    · rintro ⟨h1, h2, _⟩
      exact ⟨h1, h2 trivial⟩
  | some st0 =>
    simp only [validNode, hs, Bool.and_eq_true, List.all_eq_true]
    constructor
    · rintro ⟨h1, h2⟩
      refine ⟨h1, ?_, ?_⟩
      · intro hc
        cases hc
      · intro st hst
        cases hst
        exact h2
    · rintro ⟨h1, _, h3⟩
      exact ⟨h1, h3 st0 rfl⟩

/-! ### The claims -/

/-- C1: for every topology whose graph attributes lack `capacity_unit`, or
whose `capacity_unit` is not a recognized capacity unit, `to_ns2` raises a
configuration error (a `ValueError`, raised before the output file is
opened): the conversion aborts and no output exists. -/
theorem to_ns2_capacity_unit_error (t : Topology) (s : Bool)
    (h : t.capacity_unit = none ∨
      ∃ cu, t.capacity_unit = some cu ∧ lookupKV capacity_units cu = none) :
    ∃ msg, to_ns2 t s = .error (.valueError msg) := by
  rcases h with h | ⟨cu, hcu, hl⟩
  · exact ⟨"The given topology does not have capacity data.",
      by unfold to_ns2; rw [h]⟩
  · refine ⟨"The given topology does not have a valid capacity unit", ?_⟩
    unfold to_ns2
    rw [hcu]
    simp only [hl, Option.isNone_none, if_true]

/-- Witness for C1: a topology with no `capacity_unit` attribute and one
whose unit is unrecognized both abort with a `ValueError`. -/
theorem to_ns2_capacity_unit_error_witness :
    (tNoCap.capacity_unit = none ∧
      (∃ msg, to_ns2 tNoCap true = .error (.valueError msg))) ∧
    (tBadCap.capacity_unit = some "furlongs" ∧
      lookupKV capacity_units "furlongs" = none ∧
      (∃ msg, to_ns2 tBadCap true = .error (.valueError msg))) :=
  ⟨⟨rfl, to_ns2_capacity_unit_error tNoCap true (Or.inl rfl)⟩,
   ⟨rfl, rfl, to_ns2_capacity_unit_error tBadCap true
     (Or.inr ⟨"furlongs", rfl, rfl⟩)⟩⟩

/-- C2: `validate_ns2_stacks` returns true exactly when, at every node,
every application's property mapping holds `class`, a node with at least
one application declares a stack, and every declared stack's property
mapping holds `class`; it returns false as soon as one node violates one of
the three conditions. -/
theorem validate_ns2_stacks_characterization (t : Topology) :
    validate_ns2_stacks t = true ↔
      ∀ n ∈ t.nodes,
        ((∀ a ∈ n.applications, hasKey a.props "class" = true) ∧
         (n.stack = none → n.applications = []) ∧
         (∀ st, n.stack = some st → hasKey st.props "class" = true)) := by
  unfold validate_ns2_stacks
  rw [List.all_eq_true]
  constructor
  · intro h n hn
    exact (validNode_iff n).mp (h n hn)
  · intro h n hn
    exact (validNode_iff n).mpr (h n hn)

/-- Witness for C2: an application lacking `class` invalidates, a node
with applications but no stack invalidates, and a topology whose stack and
application both carry `class` validates. -/
theorem validate_ns2_stacks_characterization_witness :
    validate_ns2_stacks tBadApp = false ∧
    validate_ns2_stacks tNoStack = false ∧
    validate_ns2_stacks tGood = true := by
  refine ⟨rfl, rfl, (validate_ns2_stacks_characterization tGood).mpr ?_⟩
  intro n hn
  simp only [tGood, List.mem_singleton] at hn
  subst hn
  refine ⟨by decide, ?_, ?_⟩
  · intro h
    cases h
  · intro st hst
    cases hst
    decide

/-- C9: the conversion is deterministic; two runs on the same unchanged
topology snapshot with the same stacks argument agree exactly, and in
particular the rendered byte content is identical. -/
theorem to_ns2_deterministic (t1 t2 : Topology) (s : Bool) (h : t1 = t2) :
    to_ns2 t1 s = to_ns2 t2 s ∧
      ∀ w1 sc1 w2 sc2, to_ns2 t1 s = .ok (w1, sc1) → to_ns2 t2 s = .ok (w2, sc2) →
        w1 = w2 ∧ sc1.text = sc2.text := by
  subst h
  refine ⟨rfl, ?_⟩
  intro w1 sc1 w2 sc2 h1 h2
  rw [h1] at h2
  injection h2 with h2
  cases h2
  exact ⟨rfl, rfl⟩

/-- Witness for C9: two runs on the example topology agree. -/
theorem to_ns2_deterministic_witness :
    to_ns2 tW true = to_ns2 tW true ∧
      ∀ w1 sc1 w2 sc2, to_ns2 tW true = .ok (w1, sc1) →
        to_ns2 tW true = .ok (w2, sc2) → w1 = w2 ∧ sc1.text = sc2.text :=
  to_ns2_deterministic tW tW true rfl

/-- C10: when delay rendering is disabled, the per-edge delay attributes
are never read and no delay normalization factor is computed: erasing
every stored delay leaves the entire conversion unchanged (so it succeeds
even with no delay attributes at all), the disabled preamble branch leaves
the normalization slot empty, and the link loop ignores the normalization
argument entirely. -/
theorem delay_disabled_reads_no_delay (t : Topology) (s : Bool)
    (h : (delayCheck t).2 = false) :
    to_ns2 (eraseDelays t) s = to_ns2 t s ∧
    mkDelayNorm t false = some none ∧
    (∀ cn dn dn2, linkSection t false cn dn = linkSection t false cn dn2) := by
  refine ⟨to_ns2_eraseDelays t s h, rfl, ?_⟩
  intro cn dn dn2
  unfold linkSection
  exact mapOpt_congr _ _ (fun e _ => rfl)

/-- Witness for C10: the example topology has delay rendering disabled and
converts identically with all delays erased. -/
theorem delay_disabled_reads_no_delay_witness :
    (delayCheck tW).2 = false ∧
    to_ns2 (eraseDelays tW) true = to_ns2 tW true ∧
    mkDelayNorm tW false = some none :=
  ⟨rfl, (delay_disabled_reads_no_delay tW true rfl).1,
   (delay_disabled_reads_no_delay tW true rfl).2.1⟩

/-- C6: a missing or unrecognized delay unit records one non-fatal
diagnostic, the conversion continues, and the textual delay field of every
rendered link command is the literal 0, regardless of stored delays. -/
theorem delay_unit_missing_or_invalid (t : Topology) (s : Bool)
    (h : t.delay_unit = none ∨
      ∃ du, t.delay_unit = some du ∧ lookupKV time_units du = none) :
    delayCheck t = ([delayUnitMsg], false) ∧
    ∀ w sc, to_ns2 t s = .ok (w, sc) →
      delayUnitMsg ∈ w ∧
      ∀ line ∈ sc.linkLines, ∃ u v capStr,
        line = linkLineStr t.directed u v capStr "0" := by
  have hdc : delayCheck t = ([delayUnitMsg], false) := by
    rcases h with h | ⟨du, hdu, hl⟩
    · unfold delayCheck
      rw [h]
    · unfold delayCheck
      rw [hdu]
      simp [hl]
  refine ⟨hdc, ?_⟩
  intro w sc hok
  obtain ⟨cu, hcu, hcap, hrender, hw⟩ := to_ns2_ok_inv hok
  constructor
  · rw [hw, hdc]
    simp
  · obtain ⟨cn, dn, hcn, hdn, hll, _, _, _, _⟩ := renderScript_inv hrender
    intro line hline
    unfold linkSection at hll
    rw [hdc] at hll
    obtain ⟨e, he, hrl⟩ := mapOpt_mem _ hll line hline
    obtain ⟨ea, cap, ds, hea, hcapx, hlx, hds0, _⟩ := renderLinkLine_inv hrl
    exact ⟨e.1, e.2.1, pyNumStr (cap * cn), by rw [hlx, hds0 rfl]⟩

/-- Witness for C6: the example topology has no delay unit; its conversion
warns once and renders its one link with textual delay 0. -/
theorem delay_unit_missing_or_invalid_witness :
    tW.delay_unit = none ∧
    delayCheck tW = ([delayUnitMsg], false) ∧
    to_ns2 tW true = .ok ([delayUnitMsg], scW) ∧
    delayUnitMsg ∈ [delayUnitMsg] ∧
    ∀ line ∈ scW.linkLines, ∃ u v capStr,
      line = linkLineStr tW.directed u v capStr "0" := by
  have h := delay_unit_missing_or_invalid tW true (Or.inl rfl)
  have hok : to_ns2 tW true = .ok ([delayUnitMsg], scW) := rfl
  exact ⟨rfl, h.1, hok, (h.2 _ _ hok).1, (h.2 _ _ hok).2⟩

/-- C3: a successful conversion renders exactly one link command per edge,
in edge iteration order: simplex in the declared direction when the
topology is directed and a single duplex command when it is undirected, in
both cases built from the (u,v) lookup's capacity and, when enabled, its
delay. -/
theorem link_commands_per_edge (t : Topology) (s : Bool) (w : List String)
    (sc : Script) (h : to_ns2 t s = .ok (w, sc)) :
    sc.linkLines.length = t.edges.length ∧
    ∃ cn, mkCapacityNorm t = some cn ∧
      ∀ i (h1 : i < t.edges.length) (h2 : i < sc.linkLines.length),
        ∃ ea cap delayStr,
          findEdge t (t.edges.get ⟨i, h1⟩).1 (t.edges.get ⟨i, h1⟩).2.1 = some ea ∧
          ea.capacity = some cap ∧
          ((delayCheck t).2 = false → delayStr = "0") ∧
          ((delayCheck t).2 = true →
            ∃ d f, ea.delay = some d ∧ delayStr = pyNumStr (d * f)) ∧
          sc.linkLines.get ⟨i, h2⟩ =
            linkLineStr t.directed (t.edges.get ⟨i, h1⟩).1
              (t.edges.get ⟨i, h1⟩).2.1 (pyNumStr (cap * cn)) delayStr := by
  obtain ⟨cu, hcu, hcap, hrender, hw⟩ := to_ns2_ok_inv h
  obtain ⟨cn, dn, hcn, hdn, hll, _, _, _, _⟩ := renderScript_inv hrender
  unfold linkSection at hll
  refine ⟨mapOpt_length _ hll, cn, hcn, ?_⟩
  intro i h1 h2
  have hg := mapOpt_get _ hll i h1 h2
  obtain ⟨ea, cap, ds, hea, hcap2, hlx, hd0, hd1⟩ := renderLinkLine_inv hg
  refine ⟨ea, cap, ds, hea, hcap2, hd0, ?_, hlx⟩
  intro ht
  obtain ⟨d, f, hd, hf, hds⟩ := hd1 ht
  exact ⟨d, f, hd, hds⟩

/-- Witness for C3: the example undirected topology renders one duplex
command for its one edge. -/
theorem link_commands_per_edge_witness :
    to_ns2 tW true = .ok ([delayUnitMsg], scW) ∧
    scW.linkLines.length = tW.edges.length := by
  have hok : to_ns2 tW true = .ok ([delayUnitMsg], scW) := rfl
  exact ⟨hok, (link_commands_per_edge tW true _ _ hok).1⟩

/-- C7 counterexample: with capacity unit Gbps and a stored capacity of 1,
the rendered capacity field is the decimal text 1000.0 (the Python str of
the exact float value 1000), not the text 1000 stated by the claim. -/
theorem capacity_field_counterexample :
    to_ns2 tW false = .ok ([delayUnitMsg], scW) ∧
    scW.linkLines = [linkLineStr false "0" "1" "1000.0" "0"] ∧
    (1 : ℚ) * (1000000000 / 1000000) = 1000 ∧
    pyNumStr ((1 : ℚ) * (1000000000 / 1000000)) = "1000.0" ∧
    pyNumStr ((1 : ℚ) * (1000000000 / 1000000)) ≠ "1000" := by
  exact ⟨rfl, rfl, by decide, by decide, by decide⟩

/-- C7 (amended): for every topology with capacity unit Gbps, a link whose
(u,v) capacity lookup stores 1 renders a capacity field that is exactly the
decimal text 1000.0, the rendering of the exact value 1000 megabits: the
normalization factor is the unit's bits per second divided by 10^6 and it
is applied by exact multiplication with no rounding or truncation. -/
theorem capacity_field_gbps (t : Topology) (s : Bool) (w : List String)
    (sc : Script) (i : Nat) (h : to_ns2 t s = .ok (w, sc))
    (hcu : t.capacity_unit = some "Gbps") (h1 : i < t.edges.length)
    (h2 : i < sc.linkLines.length) (ea : EdgeAttr)
    (hea : findEdge t (t.edges.get ⟨i, h1⟩).1 (t.edges.get ⟨i, h1⟩).2.1 = some ea)
    (hcap1 : ea.capacity = some 1) :
    mkCapacityNorm t = some 1000 ∧
    (1 : ℚ) * 1000 = 1000 ∧
    pyNumStr ((1 : ℚ) * 1000) = "1000.0" ∧
    ∃ delayStr, sc.linkLines.get ⟨i, h2⟩ =
      linkLineStr t.directed (t.edges.get ⟨i, h1⟩).1 (t.edges.get ⟨i, h1⟩).2.1
        "1000.0" delayStr := by
  have hnorm : mkCapacityNorm t = some 1000 := by
    unfold mkCapacityNorm
    rw [hcu]
    decide
  refine ⟨hnorm, by decide, by decide, ?_⟩
  obtain ⟨cu, hcu2, hcap2, hrender, hw⟩ := to_ns2_ok_inv h
  obtain ⟨cn, dn, hcn, hdn, hll, _, _, _, _⟩ := renderScript_inv hrender
  unfold linkSection at hll
  have hg := mapOpt_get _ hll i h1 h2
  obtain ⟨ea2, cap, ds, hea2, hcap3, hlx, _, _⟩ := renderLinkLine_inv hg
  rw [hea] at hea2
  injection hea2 with hea2
  subst hea2
  rw [hcap1] at hcap3
  injection hcap3 with hcap3
  subst hcap3
  rw [hnorm] at hcn
  injection hcn with hcn
  subst hcn
  exact ⟨ds, by rw [hlx, show pyNumStr ((1 : ℚ) * 1000) = "1000.0" by decide]⟩

/-- Witness for the amended C7: the example topology carries unit Gbps and
capacity 1 and renders the capacity field 1000.0. -/
theorem capacity_field_gbps_witness :
    to_ns2 tW false = .ok ([delayUnitMsg], scW) ∧
    tW.capacity_unit = some "Gbps" ∧
    eaW.capacity = some 1 ∧
    mkCapacityNorm tW = some 1000 := by
  have hok : to_ns2 tW false = .ok ([delayUnitMsg], scW) := rfl
  refine ⟨hok, rfl, rfl, ?_⟩
  exact (capacity_field_gbps tW false [delayUnitMsg] scW 0 hok rfl (by decide)
    (by decide) eaW rfl rfl).1

/-- When the weight flag holds, the cost loop of one edge renders to the
spec-side command pair for that edge. -/
theorem renderEdgeWeights_of_flag (t : Topology) (hf : set_weights_of t = true)
    (e : String × String × EdgeAttr) (he : e ∈ t.edges) :
    renderEdgeWeights t e = some
      (if t.directed then
        [costLineStr e.1 e.2.1 (((findEdge t e.1 e.2.1).bind EdgeAttr.weight).getD "")]
      else
        [costLineStr e.1 e.2.1 (((findEdge t e.1 e.2.1).bind EdgeAttr.weight).getD ""),
         costLineStr e.2.1 e.1 (((findEdge t e.2.1 e.1).bind EdgeAttr.weight).getD "")]) := by
  have h1 := findEdge_isSome_of_mem t e he
  cases hfe : findEdge t e.1 e.2.1 with
  | none => rw [hfe] at h1; cases h1
  | some ea =>
    have hwea := findEdge_weight_of_flag t hf _ _ ea hfe
    cases hw : ea.weight with
    | none => rw [hw] at hwea; cases hwea
    | some wv =>
      cases hd : t.directed with
      | true =>
        simp only [renderEdgeWeights, hfe, hw, hd, Option.bind_eq_bind,
          Option.some_bind, if_true, Option.bind_some, Option.getD_some,
          Option.pure_def]
      | false =>
        have h2 := findEdge_rev_isSome_of_mem t e he hd
        cases hfe2 : findEdge t e.2.1 e.1 with
        | none => rw [hfe2] at h2; cases h2
        | some ea2 =>
          have hwea2 := findEdge_weight_of_flag t hf _ _ ea2 hfe2
          cases hw2 : ea2.weight with
          | none => rw [hw2] at hwea2; cases hwea2
          | some wv2 =>
            simp only [renderEdgeWeights, hfe, hw, hfe2, hw2, hd,
              Option.bind_eq_bind, Option.some_bind, Bool.false_eq_true,
              if_false, Option.bind_some, Option.getD_some, Option.pure_def]

/-- When the weight flag holds, the weight section is exactly the
spec-side cost command list. -/
theorem weightSection_enabled (t : Topology) (hf : set_weights_of t = true) :
    weightSection t true = some (costCommandsSpec t) := by
  unfold weightSection costCommandsSpec
  rw [if_pos rfl,
    mapOpt_eq_map (renderEdgeWeights t) _
      (fun e he => renderEdgeWeights_of_flag t hf e he)]
  rfl

/-- C4: weight rendering is enabled exactly when every edge of the
topology carries a weight attribute; when disabled no diagnostic is
recorded (the warnings coincide with those of the weight-stripped
topology) and the weight section is empty; when enabled, a directed
topology yields one cost command per edge and an undirected one exactly
two per edge, one per direction, each reading that direction's weight
lookup. -/
theorem weight_rendering (t : Topology) (s : Bool) :
    (consistentEdges t →
      (set_weights_of t = true ↔ ∀ e ∈ t.edges, e.2.2.weight.isSome = true)) ∧
    (∀ w sc w2 sc2, to_ns2 t s = .ok (w, sc) →
      to_ns2 (eraseWeights t) s = .ok (w2, sc2) → w = w2) ∧
    (set_weights_of t = false → weightSection t (set_weights_of t) = some []) ∧
    (set_weights_of t = true →
      weightSection t true = some (costCommandsSpec t) ∧
      (t.directed = true → (costCommandsSpec t).length = t.edges.length) ∧
      (t.directed = false → (costCommandsSpec t).length = 2 * t.edges.length)) ∧
    (∀ w sc, to_ns2 t s = .ok (w, sc) →
      sc.weightLines = if set_weights_of t = true then costCommandsSpec t else []) := by
  refine ⟨?_, ?_, ?_, ?_, ?_⟩
  · intro hcons
    constructor
    · intro hf e he
      have := findEdge_weight_of_flag t hf e.1 e.2.1 e.2.2 (hcons e he)
      exact this
    · intro hall
      unfold set_weights_of
      rw [List.all_eq_true]
      intro e he
      rw [hcons e he]
      simpa using hall e he
  · intro w sc w2 sc2 h1 h2
    obtain ⟨cu, hcu, hcap, hrender, hw⟩ := to_ns2_ok_inv h1
    obtain ⟨cu2, hcu2, hcap2, hrender2, hw2⟩ := to_ns2_ok_inv h2
    rw [hw, hw2]
    rfl
  · intro hf
    rw [hf]
    rfl
  · intro hf
    refine ⟨weightSection_enabled t hf, ?_, ?_⟩
    · intro hd
      unfold costCommandsSpec
      rw [concatAll_length_const _ _ 1 (fun e _ => by rw [hd]; rfl), Nat.one_mul]
    · intro hd
      unfold costCommandsSpec
      rw [concatAll_length_const _ _ 2 (fun e _ => by rw [hd]; rfl)]
  · intro w sc hok
    obtain ⟨cu, hcu, hcap, hrender, hw⟩ := to_ns2_ok_inv hok
    obtain ⟨cn, dn, hcn, hdn, _, hwl, _, _, _⟩ := renderScript_inv hrender
    cases hf : set_weights_of t with
    | false =>
      rw [hf] at hwl
      simp only [if_neg (by simp : ¬ (false = true))]
      have : (some [] : Option (List String)) = some sc.weightLines := hwl
      injection this with h2
      exact h2.symm
    | true =>
      rw [hf, weightSection_enabled t hf] at hwl
      injection hwl with h2
      rw [if_pos rfl]
      exact h2.symm

/-- Witness for C4: the example topology has weights on its one edge, so
the flag holds and the two directional cost commands render; with the
weights stripped, the flag clears, the section is empty and the warnings
are unchanged. -/
theorem weight_rendering_witness :
    set_weights_of tW = true ∧
    weightSection tW true = some (costCommandsSpec tW) ∧
    set_weights_of (eraseWeights tW) = false ∧
    to_ns2 tW true = .ok ([delayUnitMsg], scW) ∧
    to_ns2 (eraseWeights tW) true =
      .ok ([delayUnitMsg], ⟨scW.nodeLines, scW.linkLines, [], scW.bufferLines, []⟩) ∧
    [delayUnitMsg] = [delayUnitMsg] := by
  have h := weight_rendering tW true
  have hok : to_ns2 tW true = .ok ([delayUnitMsg], scW) := rfl
  have hok2 : to_ns2 (eraseWeights tW) true =
      .ok ([delayUnitMsg], ⟨scW.nodeLines, scW.linkLines, [], scW.bufferLines, []⟩) := rfl
  exact ⟨rfl, (h.2.2.2.1 rfl).1, rfl, hok, hok2, h.2.1 _ _ _ _ hok hok2⟩

/-- Any attribute dictionary an edge lookup resolves to is the stored
dictionary of some edge of the list. -/
theorem findEdge_attr_mem (t : Topology) (u v : String) (ea : EdgeAttr)
    (h : findEdge t u v = some ea) : ∃ e ∈ t.edges, e.2.2 = ea := by
  unfold findEdge at h
  cases h1 : t.edges.find? (fun e => e.1 == u && e.2.1 == v) with
  | some x =>
    rw [h1] at h
    injection h with h
    exact ⟨x, List.mem_of_find?_eq_some h1, h⟩
  | none =>
    rw [h1] at h
    cases hd : t.directed with
    | true => rw [hd] at h; simp at h
    | false =>
      rw [hd] at h
      simp only [if_false, Bool.false_eq_true] at h
      cases h2 : t.edges.find? (fun e => e.1 == v && e.2.1 == u) with
      | some x =>
        rw [h2] at h
        injection h with h
        exact ⟨x, List.mem_of_find?_eq_some h2, h⟩
      | none => rw [h2] at h; cases h

/-- When every resolvable edge lookup carries a buffer, the queue-limit
loop of one edge renders to the spec-side command pair for that edge. -/
theorem renderEdgeBuffers_of_all (t : Topology)
    (hb : ∀ u v ea, findEdge t u v = some ea → ea.buffer.isSome = true)
    (e : String × String × EdgeAttr) (he : e ∈ t.edges) :
    renderEdgeBuffers t e = some
      (if t.directed then
        [queueLineStr e.1 e.2.1 (((findEdge t e.1 e.2.1).bind EdgeAttr.buffer).getD "")]
      else
        [queueLineStr e.1 e.2.1 (((findEdge t e.1 e.2.1).bind EdgeAttr.buffer).getD ""),
         queueLineStr e.2.1 e.1 (((findEdge t e.2.1 e.1).bind EdgeAttr.buffer).getD "")]) := by
  have h1 := findEdge_isSome_of_mem t e he
  cases hfe : findEdge t e.1 e.2.1 with
  | none => rw [hfe] at h1; cases h1
  | some ea =>
    have hbea := hb _ _ ea hfe
    cases hbuf : ea.buffer with
    | none => rw [hbuf] at hbea; cases hbea
    | some bv =>
      cases hd : t.directed with
      | true =>
        simp only [renderEdgeBuffers, hfe, hbuf, hd, Option.bind_eq_bind,
          Option.some_bind, if_true, Option.bind_some, Option.getD_some,
          Option.pure_def]
      | false =>
        have h2 := findEdge_rev_isSome_of_mem t e he hd
        cases hfe2 : findEdge t e.2.1 e.1 with
        | none => rw [hfe2] at h2; cases h2
        | some ea2 =>
          have hbea2 := hb _ _ ea2 hfe2
          cases hbuf2 : ea2.buffer with
          | none => rw [hbuf2] at hbea2; cases hbea2
          | some bv2 =>
            simp only [renderEdgeBuffers, hfe, hbuf, hfe2, hbuf2, hd,
              Option.bind_eq_bind, Option.some_bind, Bool.false_eq_true,
              if_false, Option.bind_some, Option.getD_some, Option.pure_def]

/-- When every resolvable edge lookup carries a buffer, the enabled buffer
section is exactly the spec-side queue-limit command list. -/
theorem bufferSection_enabled (t : Topology)
    (hb : ∀ u v ea, findEdge t u v = some ea → ea.buffer.isSome = true) :
    bufferSection t true = some (queueCommandsSpec t) := by
  unfold bufferSection queueCommandsSpec
  rw [if_pos rfl,
    mapOpt_eq_map (renderEdgeBuffers t) _
      (fun e he => renderEdgeBuffers_of_all t hb e he)]
  rfl

/-- C5: a missing `buffer_unit`, or one differing from the literal string
packets, records one non-fatal diagnostic, disables buffer rendering (the
output holds no queue-limit command) and leaves every other feature
unaffected; when `buffer_unit` is exactly packets, the queue-limit commands
render with the same direction-doubling rule as the weights. -/
theorem buffer_unit_handling (t : Topology) (s : Bool) :
    ((t.buffer_unit = none → bufferCheck t = ([bufferMissingMsg], false)) ∧
     (∀ bu, t.buffer_unit = some bu → bu ≠ "packets" →
        bufferCheck t = ([bufferUnitMsg bu], false)) ∧
     (t.buffer_unit = some "packets" → bufferCheck t = ([], true))) ∧
    (∀ w sc, to_ns2 t s = .ok (w, sc) →
      ((bufferCheck t).2 = false →
        sc.bufferLines = [] ∧ ∀ m ∈ (bufferCheck t).1, m ∈ w) ∧
      ((bufferCheck t).2 = true →
        (∀ u v ea, findEdge t u v = some ea → ea.buffer.isSome = true) →
        sc.bufferLines = queueCommandsSpec t)) ∧
    (∀ w sc w2 sc2, to_ns2 t s = .ok (w, sc) →
      to_ns2 (eraseBufferUnit t) s = .ok (w2, sc2) →
      sc.nodeLines = sc2.nodeLines ∧ sc.linkLines = sc2.linkLines ∧
      sc.weightLines = sc2.weightLines ∧ sc.stackLines = sc2.stackLines) := by
  refine ⟨⟨?_, ?_, ?_⟩, ?_, ?_⟩
  · intro h
    unfold bufferCheck
    rw [h]
  · intro bu hbu hne
    unfold bufferCheck
    rw [hbu]
    simp only [beq_iff_eq, if_neg hne]
  · intro h
    unfold bufferCheck
    rw [h]
    rfl
  · intro w sc hok
    obtain ⟨cu, hcu, hcap, hrender, hw⟩ := to_ns2_ok_inv hok
    obtain ⟨cn, dn, hcn, hdn, _, _, hbl, _, _⟩ := renderScript_inv hrender
    constructor
    · intro hflag
      rw [hflag] at hbl
      constructor
      · have : (some [] : Option (List String)) = some sc.bufferLines := hbl
        injection this with h2
        exact h2.symm
      · intro m hm
        rw [hw]
        simp only [List.mem_append]
        exact Or.inl (Or.inl hm)
    · intro hflag hb
      rw [hflag, bufferSection_enabled t hb] at hbl
      injection hbl with h2
      exact h2.symm
  · intro w sc w2 sc2 h1 h2
    obtain ⟨cu, hcu, hcap, hrender, hw⟩ := to_ns2_ok_inv h1
    obtain ⟨cu2, hcu2, hcap2, hrender2, hw2⟩ := to_ns2_ok_inv h2
    obtain ⟨cn, dn, hcn, hdn, hll, hwl, _, hsl, hnl⟩ := renderScript_inv hrender
    obtain ⟨cn2, dn2, hcn2, hdn2, hll2, hwl2, _, hsl2, hnl2⟩ :=
      renderScript_inv hrender2
    have hcneq : cn = cn2 := by
      rw [show mkCapacityNorm (eraseBufferUnit t) = mkCapacityNorm t from rfl]
        at hcn2
      rw [hcn] at hcn2
      injection hcn2
    subst hcneq
    have hdneq : dn = dn2 := by
      rw [show mkDelayNorm (eraseBufferUnit t) (delayCheck (eraseBufferUnit t)).2
          = mkDelayNorm t (delayCheck t).2 from rfl] at hdn2
      rw [hdn] at hdn2
      injection hdn2
    subst hdneq
    refine ⟨?_, ?_, ?_, ?_⟩
    · rw [hnl, hnl2]
      rfl
    · rw [show linkSection (eraseBufferUnit t) (delayCheck (eraseBufferUnit t)).2 cn dn
          = linkSection t (delayCheck t).2 cn dn from rfl] at hll2
      rw [hll] at hll2
      injection hll2
    · rw [show weightSection (eraseBufferUnit t) (set_weights_of (eraseBufferUnit t))
          = weightSection t (set_weights_of t) from rfl] at hwl2
      rw [hwl] at hwl2
      injection hwl2
    · rw [show stackSection (eraseBufferUnit t) (stacksCheck (eraseBufferUnit t) s).2
          = stackSection t (stacksCheck t s).2 from rfl] at hsl2
      rw [hsl] at hsl2
      injection hsl2

/-- Witness for C5: the example topology has unit packets and buffers on
its one edge, so the two directional queue-limit commands render; with the
unit removed, the diagnostic is recorded, no queue-limit command renders,
and the other sections are unchanged. -/
theorem buffer_unit_handling_witness :
    bufferCheck tW = ([], true) ∧
    to_ns2 tW true = .ok ([delayUnitMsg], scW) ∧
    scW.bufferLines = queueCommandsSpec tW ∧
    bufferCheck (eraseBufferUnit tW) = ([bufferMissingMsg], false) ∧
    to_ns2 (eraseBufferUnit tW) true =
      .ok ([bufferMissingMsg, delayUnitMsg],
        ⟨scW.nodeLines, scW.linkLines, scW.weightLines, [], []⟩) ∧
    bufferMissingMsg ∈ [bufferMissingMsg, delayUnitMsg] := by
  have h := buffer_unit_handling tW true
  have h2 := buffer_unit_handling (eraseBufferUnit tW) true
  have hok : to_ns2 tW true = .ok ([delayUnitMsg], scW) := rfl
  have hok2 : to_ns2 (eraseBufferUnit tW) true =
      .ok ([bufferMissingMsg, delayUnitMsg],
        ⟨scW.nodeLines, scW.linkLines, scW.weightLines, [], []⟩) := rfl
  refine ⟨h.1.2.2 rfl, hok, ?_, h2.1.1 rfl, hok2, ?_⟩
  · refine (h.2.1 _ _ hok).2 rfl ?_
    intro u v ea hfe
    obtain ⟨e, he, hea⟩ := findEdge_attr_mem tW u v ea hfe
    have he2 : e = ("0", "1", eaW) := by simpa [tW] using he
    rw [← hea, he2]
    rfl
  · exact (h2.2.1 _ _ hok2).1 rfl |>.2 bufferMissingMsg (by rw [h2.1.1 rfl]; simp)

/-- C8 counterexample: a valid topology in which no node declares a stack,
with stacks requested, is downgraded with an empty warning list: the second
downgrade case emits no diagnostic. -/
theorem stack_downgrade_counterexample :
    validate_ns2_stacks tC8 = true ∧
    stacksCheck tC8 true = ([], false) ∧
    to_ns2 tC8 true = .ok ([], ⟨[nodeLineStr "0"], [], [], [], []⟩) :=
  ⟨rfl, rfl, rfl⟩

/-- C8 (amended): when stack deployment is requested, `to_ns2` downgrades
`deploy_stacks` in two cases — when `validate_ns2_stacks` fails, with one
diagnostic, and when no node declares a stack, silently (no diagnostic) —
and in either case the rendered output holds no stack or application
deployment command while the other sections render. -/
theorem stack_deployment_downgrade (t : Topology) :
    (validate_ns2_stacks t = false → stacksCheck t true = ([stackInvalidMsg], false)) ∧
    (validate_ns2_stacks t = true →
      t.nodes.any (fun n => n.stack.isSome) = false →
      stacksCheck t true = ([], false)) ∧
    ((stacksCheck t true).2 = false →
      ∀ w sc, to_ns2 t true = .ok (w, sc) → sc.stackLines = []) := by
  refine ⟨?_, ?_, ?_⟩
  · intro hv
    unfold stacksCheck
    rw [if_pos rfl, hv]
    rfl
  · intro hv hany
    unfold stacksCheck
    rw [if_pos rfl, hv, hany]
    rfl
  · intro hflag w sc hok
    obtain ⟨cu, hcu, hcap, hrender, hw⟩ := to_ns2_ok_inv hok
    obtain ⟨cn, dn, hcn, hdn, _, _, _, hsl, _⟩ := renderScript_inv hrender
    rw [hflag] at hsl
    have : (some [] : Option (List String)) = some sc.stackLines := hsl
    injection this with h2
    exact h2.symm

/-- Witness for the amended C8: the no-stack topology downgrades silently
and its output carries no deployment command. -/
theorem stack_deployment_downgrade_witness :
    validate_ns2_stacks tC8 = true ∧
    stacksCheck tC8 true = ([], false) ∧
    to_ns2 tC8 true = .ok ([], ⟨[nodeLineStr "0"], [], [], [], []⟩) ∧
    validate_ns2_stacks tBadApp = false ∧
    stacksCheck tBadApp true = ([stackInvalidMsg], false) := by
  have h := stack_deployment_downgrade tC8
  have h2 := stack_deployment_downgrade tBadApp
  exact ⟨rfl, h.2.1 rfl rfl, rfl, rfl, h2.1 rfl⟩

end NS2
